import Mathlib

/-!
Verification of the `nbody-relaxed` parameter/filter/model pipeline.

Shallow embedding of the core of the repository:

* `relaxed/halo_filters.py` — `intersect`, the filter builders and `HaloFilter`;
* `relaxed/models.py` — the `PredictionModel` hierarchy (`MultiVariateGaussian`,
  `CAM`, `LinearRegression`, `LASSO`, `LogNormalRandomSample`) and `training_suite`;
* `intro/src/Params.py` — the `Param` (halo parameter) object.

Conventions of the embedding:

* numpy float arrays are embedded as `List ℚ` (exact arithmetic; the claims under
  study are about exact structural behaviour, and rational inputs keep every
  computation exact).  A possibly-NaN array entry is `Option ℚ`, with `none`
  playing the role of NaN; data that has passed a no-NaN check is stripped back
  to `List ℚ`.
* a Python function that can raise is embedded as a function into
  `Except PyErr _`; an uncaught exception means no value is returned to the
  caller (so "no partial results" is the Python semantics of `Except.error`).
* library collaborators that the repository calls are embedded by their
  documented semantics (`np.searchsorted`, `np.sort`, `np.cov` with `ddof=1`,
  `np.linalg.inv`, `scipy.interpolate.interp1d`); opaque external collaborators
  (sklearn estimators, `np.log`, `np.std`, and the absent
  `relaxed.analysis.get_an_from_am`) are taken as parameters.
-/

namespace Relaxed

/-- The Python exceptions that the embedded code can raise. -/
inductive PyErr : Type
  | assertionError
  | attributeError (attr : String)
  | notImplementedError
  | linAlgError
  | typeError
  | indexError
  deriving DecidableEq

/-! ## `halo_filters.intersect` (models `src/relaxed/halo_filters.py`, lines 14-34) -/

/-- `np.all(np.sort(ids) == ids)`: an integer array equals its ascending sort
exactly when it is non-decreasing. -/
def isSortedLe : List ℤ → Bool
  | [] => true
  | [_] => true
  | a :: b :: t => decide (a ≤ b) && isSortedLe (b :: t)

/-- `np.searchsorted(a, v)` (left side) on an ascending array `a`: the leftmost
insertion index, i.e. the number of entries of `a` strictly below `v`. -/
def searchsortedLeft (a : List ℤ) (v : ℤ) : ℕ :=
  a.countP (fun b => decide (b < v))

/-- `intersect(ids1, ids2)`.  The two `assert np.all(np.sort(ids) == ids)`
checks raise `AssertionError` on unsorted input.  The mask update

    indx = np.searchsorted(ids2, ids1)
    indx_ok = indx < len(ids2)
    indx_ok[indx_ok] &= ids2[indx[indx_ok]] == ids1[indx_ok]

is elementwise: position `i` ends up true iff `indx[i] < len(ids2)` and
`ids2[indx[i]] == ids1[i]` (the fancy-indexed `&=` touches exactly the positions
whose first test passed, and `ids2[indx[indx_ok]]` only indexes with in-range
indices). -/
def intersect (ids1 ids2 : List ℤ) : Except PyErr (List Bool) :=
  if isSortedLe ids1 && isSortedLe ids2 then
    .ok (ids1.map fun v =>
      decide (searchsortedLeft ids2 v < ids2.length) &&
      decide (ids2.getD (searchsortedLeft ids2 v) 0 = v))
  else .error .assertionError

theorem isSortedLe_iff_chain : ∀ l : List ℤ, isSortedLe l = true ↔ l.Chain' (· ≤ ·)
  | [] => by simp [isSortedLe]
  | [a] => by simp [isSortedLe]
  | a :: b :: t => by
    rw [isSortedLe, Bool.and_eq_true, decide_eq_true_iff, List.chain'_cons,
      isSortedLe_iff_chain (b :: t)]

theorem isSortedLe_of_sorted {l : List ℤ} (h : l.Sorted (· ≤ ·)) : isSortedLe l = true := by
  rw [isSortedLe_iff_chain]
  exact List.chain'_iff_pairwise.mpr h

/-- On a non-decreasing array `b`, the left insertion point of `v` lands on an
in-range copy of `v` exactly when `v` occurs in `b`. -/
theorem searchsorted_hit_iff_mem {b : List ℤ} (hb : b.Sorted (· ≤ ·)) (v : ℤ) :
    (searchsortedLeft b v < b.length ∧ b.getD (searchsortedLeft b v) 0 = v) ↔ v ∈ b := by
  induction b with
  | nil => simp [searchsortedLeft]
  | cons x t ih =>
    rw [List.sorted_cons] at hb
    obtain ⟨hx, ht⟩ := hb
    by_cases hlt : x < v
    · have hstep : searchsortedLeft (x :: t) v = searchsortedLeft t v + 1 := by
        simp [searchsortedLeft, List.countP_cons, hlt]
      rw [hstep]
      simp only [List.length_cons, Nat.add_lt_add_iff_right, List.getD_cons_succ,
        List.mem_cons]
      rw [ih ht]
      constructor
      · exact Or.inr
      · rintro (rfl | hmem)
        · exact absurd hlt (lt_irrefl v)
        · exact hmem
    · have hzero : List.countP (fun b => decide (b < v)) t = 0 := by
        apply List.countP_eq_zero.mpr
        intro a ha
        simp only [decide_eq_true_eq, not_lt]
        exact le_trans (not_lt.mp hlt) (hx a ha)
      have hcount : searchsortedLeft (x :: t) v = 0 := by
        simp [searchsortedLeft, List.countP_cons, hzero, hlt]
      rw [hcount]
      simp only [List.length_cons, Nat.succ_pos, true_and, List.getD_cons_zero,
        List.mem_cons]
      constructor
      · intro h; exact Or.inl h.symm
      · rintro (rfl | hmem)
        · rfl
        · exact le_antisymm (hx v hmem) (not_lt.mp hlt)

/-- C3: for all sorted, strictly-ascending integer id arrays `A` and `B`,
`intersect(A, B)` returns (does not raise) a boolean mask of length `|A|` whose
`i`-th entry is true iff `A[i]` occurs in `B`.  The returned mask is literally
the membership map of `A` in `B`, which has length `A.length` and whose `i`-th
entry decides `A[i] ∈ B`. -/
theorem intersect_mask_correct (A B : List ℤ) (hA : A.Sorted (· < ·))
    (hB : B.Sorted (· < ·)) :
    intersect A B = .ok (A.map fun v => decide (v ∈ B)) := by
  have hA' : A.Sorted (· ≤ ·) := hA.imp le_of_lt
  have hB' : B.Sorted (· ≤ ·) := hB.imp le_of_lt
  rw [intersect, if_pos (by rw [isSortedLe_of_sorted hA', isSortedLe_of_sorted hB']; rfl)]
  congr 1
  apply List.map_congr_left
  intro v _
  by_cases hmem : v ∈ B
  · have h := (searchsorted_hit_iff_mem hB' v).mpr hmem
    rw [decide_eq_true h.1, decide_eq_true h.2, decide_eq_true hmem]
    rfl
  · have h := (searchsorted_hit_iff_mem hB' v).not.mpr hmem
    push_neg at h
    rw [decide_eq_false hmem]
    by_cases hlen : searchsortedLeft B v < B.length
    · rw [decide_eq_true hlen, decide_eq_false (h hlen)]
      rfl
    · rw [decide_eq_false hlen]
      rfl

theorem intersect_mask_correct_witness :
    intersect [1, 3, 5] [2, 3, 4, 5] =
      .ok ([1, 3, 5].map fun v => decide (v ∈ [2, 3, 4, 5])) :=
  intersect_mask_correct [1, 3, 5] [2, 3, 4, 5] (by decide) (by decide)

/-! ## `scipy.interpolate.interp1d` and the `CAM` model
(models `src/relaxed/models.py`, lines 219-255) -/

/-- `scipy.interpolate.interp1d(xs, ys, fill_value=(lo, hi), bounds_error=False)`
evaluated at `t`, over the node list `ps = xs.zip ys` with `xs` ascending:
below the first node it returns `lo`, above the last node `hi`, and otherwise
the piecewise-linear interpolant (so exactly the node value at a node). -/
def interp (lo hi : ℚ) : List (ℚ × ℚ) → ℚ → ℚ
  | [], _ => lo
  | [p], t => if t < p.1 then lo else if p.1 < t then hi else p.2
  | p :: q :: ps, t =>
    if t < p.1 then lo
    else if t ≤ q.1 then p.2 + (q.2 - p.2) * (t - p.1) / (q.1 - p.1)
    else interp lo hi (q :: ps) t

/-- The data of a fitted `CAM` model: the node tables of the two interpolators
`an_to_mark = interp1d(an_sort, marks, fill_value=(0, 1))` and
`mark_to_Y = interp1d(marks, y_sort, fill_value=(y_sort[0], y_sort[-1]))`. -/
structure CamFitted where
  an_sort : List ℚ
  marks : List ℚ
  y_sort : List ℚ
  deriving DecidableEq

/-- `marks = np.arange(n) / n; marks += (marks[1] - marks[0]) / 2` for
`n = len(y_sort)`.  Reading `marks[1]` raises `IndexError` when `n < 2`. -/
def camMarks (n : ℕ) : Except PyErr (List ℚ) :=
  match (List.range n).map (fun i : ℕ => (i : ℚ) / (n : ℚ)) with
  | m0 :: m1 :: rest => .ok ((m0 :: m1 :: rest).map (fun m => m + (m1 - m0) / 2))
  | _ => .error .indexError

/-- `cam_order * np.sort(cam_order * y)`: `np.sort` is ascending sort, embedded
by `List.insertionSort` (on rationals the sorted permutation is unique). -/
def camSortKey (cam_order : ℤ) (y : List ℚ) : List ℚ :=
  ((y.map (fun v => (cam_order : ℚ) * v)).insertionSort (· ≤ ·)).map
    (fun v => (cam_order : ℚ) * v)

/-- `CAM._fit` after the rank statistic `an_train = get_an_from_am(...)` has
been computed (the external collaborator `get_an_from_am` is applied by the
callers `camFit`/`camPredict` below). -/
def camFitInner (cam_order : ℤ) (an_train y : List ℚ) : Except PyErr CamFitted :=
  match camMarks (camSortKey cam_order y).length with
  | .error e => .error e
  | .ok marks => .ok ⟨an_train.insertionSort (· ≤ ·), marks, camSortKey cam_order y⟩

/-- The fitted `an_to_mark` interpolator (`fill_value=(0, 1)`). -/
def camAnToMark (m : CamFitted) (t : ℚ) : ℚ :=
  interp 0 1 (m.an_sort.zip m.marks) t

/-- The fitted `mark_to_Y` interpolator (`fill_value=(y_sort[0], y_sort[-1])`;
`y_sort` is nonempty whenever the fit succeeded, so the defaults are inert). -/
def camMarkToY (m : CamFitted) (t : ℚ) : ℚ :=
  interp (m.y_sort.headD 0) (m.y_sort.getLastD 0) (m.marks.zip m.y_sort) t

/-- `CAM._predict` after the rank statistics `an` have been computed:
`self.mark_to_Y(self.an_to_mark(an))`, elementwise over the array. -/
def camPredictInner (m : CamFitted) (an : List ℚ) : List ℚ :=
  an.map (fun t => camMarkToY m (camAnToMark m t))

theorem interp_below (lo hi : ℚ) (ps : List (ℚ × ℚ)) (t : ℚ)
    (hbelow : ∀ p ∈ ps, t < p.1) : interp lo hi ps t = lo := by
  match ps with
  | [] => rfl
  | [p] =>
    simp only [interp]
    rw [if_pos (hbelow p (by simp))]
  | p :: q :: rest =>
    simp only [interp]
    rw [if_pos (hbelow p (by simp))]

theorem interp_above (lo hi : ℚ) :
    ∀ (ps : List (ℚ × ℚ)) (t : ℚ), ps ≠ [] → (∀ p ∈ ps, p.1 < t) →
      interp lo hi ps t = hi
  | [], _, hne, _ => absurd rfl hne
  | [p], t, _, habove => by
    simp only [interp]
    rw [if_neg (not_lt.mpr (le_of_lt (habove p (by simp)))), if_pos (habove p (by simp))]
  | p :: q :: rest, t, _, habove => by
    simp only [interp]
    rw [if_neg (not_lt.mpr (le_of_lt (habove p (by simp)))),
      if_neg (not_le.mpr (habove q (by simp)))]
    exact interp_above lo hi (q :: rest) t (by simp)
      (fun r hr => habove r (List.mem_cons_of_mem p hr))

/-- At a node abscissa, the interpolant returns the node ordinate (the node
abscissas being strictly increasing). -/
theorem interp_node (lo hi : ℚ) :
    ∀ (ps : List (ℚ × ℚ)), ps.Pairwise (fun a b => a.1 < b.1) →
      ∀ i (h : i < ps.length),
        interp lo hi ps (ps.get ⟨i, h⟩).1 = (ps.get ⟨i, h⟩).2 := by
  intro ps
  induction ps with
  | nil => intro _ i h; simp at h
  | cons p tail ih =>
    intro hps i h
    rcases List.pairwise_cons.mp hps with ⟨hhead, htail⟩
    match tail, i with
    | [], 0 =>
      simp only [List.get, interp]
      rw [if_neg (lt_irrefl p.1), if_neg (lt_irrefl p.1)]
    | [], j+1 => simp at h
    | q :: rest, 0 =>
      have hpq : p.1 < q.1 := hhead q (by simp)
      simp only [List.get, interp]
      rw [if_neg (lt_irrefl p.1), if_pos (le_of_lt hpq), sub_self, mul_zero, zero_div,
        add_zero]
    | q :: rest, 1 =>
      have hpq : p.1 < q.1 := hhead q (by simp)
      simp only [List.get, interp]
      rw [if_neg (not_lt.mpr (le_of_lt hpq)), if_pos (le_refl q.1), mul_div_assoc,
        div_self (sub_ne_zero.mpr (ne_of_gt hpq)), mul_one]
      ring
    | q :: rest, k+2 =>
      have hk : k < rest.length := by simpa using h
      have hmem : rest.get ⟨k, hk⟩ ∈ q :: rest :=
        List.mem_cons_of_mem q (List.get_mem rest k hk)
      have hp1 : p.1 < (rest.get ⟨k, hk⟩).1 := hhead _ hmem
      have hq1 : q.1 < (rest.get ⟨k, hk⟩).1 :=
        (List.pairwise_cons.mp htail).1 _ (List.get_mem rest k hk)
      have hrec := ih htail (k+1) (by simpa using h)
      simp only [List.get] at hrec ⊢
      simp only [interp]
      rw [if_neg (not_lt.mpr (le_of_lt hp1)), if_neg (not_le.mpr hq1)]
      exact hrec

theorem pairwise_fst_zip {α : Type} {xs : List ℚ} (ys : List α)
    (h : xs.Pairwise (· < ·)) : (xs.zip ys).Pairwise (fun a b => a.1 < b.1) := by
  induction xs generalizing ys with
  | nil => simp
  | cons x xt ih =>
    cases ys with
    | nil => simp
    | cons y yt =>
      rw [List.zip_cons_cons]
      rcases List.pairwise_cons.mp h with ⟨hx, hxt⟩
      refine List.pairwise_cons.mpr ⟨?_, ih yt hxt⟩
      rintro ⟨b1, b2⟩ hb
      exact hx b1 (List.of_mem_zip hb).1

theorem getD_zip_eq {l l' : List ℚ} {i : ℕ} (h1 : i < l.length) (h2 : i < l'.length) :
    (l.zip l').getD i (0, 0) = (l.getD i 0, l'.getD i 0) := by
  have hz : i < (l.zip l').length := by
    rw [List.length_zip]
    exact lt_min h1 h2
  rw [List.getD_eq_getElem _ _ hz, List.getD_eq_getElem _ _ h1, List.getD_eq_getElem _ _ h2]
  exact List.getElem_zip

theorem interp_node_getD (lo hi : ℚ) (ps : List (ℚ × ℚ))
    (hps : ps.Pairwise (fun a b => a.1 < b.1)) (i : ℕ) (h : i < ps.length) :
    interp lo hi ps ((ps.getD i (0, 0)).1) = (ps.getD i (0, 0)).2 := by
  have hn := interp_node lo hi ps hps i h
  rw [List.getD_eq_getElem _ _ h, ← List.get_eq_getElem ps ⟨i, h⟩]
  exact hn

theorem map_range_add_two (k : ℕ) (f : ℕ → ℚ) :
    (List.range (k + 2)).map f = f 0 :: f 1 :: (List.range k).map (fun i => f (i + 2)) := by
  rw [List.range_succ_eq_map, List.range_succ_eq_map]
  simp only [List.map_cons, List.map_map, Function.comp_def]

theorem half_step (c : ℚ) (a : ℚ) : a / c + (1 / c - 0 / c) / 2 = a / c + 1 / (2 * c) := by
  rw [zero_div, sub_zero, div_div, mul_comm c 2]

/-- For `n ≥ 2` the mark construction succeeds, and the marks are the evenly
spaced fractional ranks offset by half a rank-step: `i/n + 1/(2n)`. -/
theorem camMarks_eq (n : ℕ) (hn : 2 ≤ n) :
    camMarks n = .ok ((List.range n).map (fun i : ℕ => (i : ℚ) / n + 1 / (2 * n))) := by
  obtain ⟨k, rfl⟩ : ∃ k, n = k + 2 := ⟨n - 2, by omega⟩
  simp only [camMarks, map_range_add_two]
  refine congrArg Except.ok ?_
  rw [List.map_cons, List.map_cons, List.map_map]
  refine congrArg₂ List.cons ?_ (congrArg₂ List.cons ?_ ?_)
  · push_cast
    exact half_step _ _
  · push_cast
    exact half_step _ _
  · apply List.map_congr_left
    intro a _
    simp only [Function.comp_apply]
    push_cast
    exact half_step _ _

theorem camMarksCanon_sorted (n : ℕ) (hn : 2 ≤ n) :
    ((List.range n).map (fun i : ℕ => (i : ℚ) / n + 1 / (2 * n))).Pairwise (· < ·) := by
  have hnq : (0 : ℚ) < n := by exact_mod_cast lt_of_lt_of_le Nat.zero_lt_two hn
  refine List.Pairwise.map _ ?_ (List.pairwise_lt_range n)
  intro a b hab
  have hcast : (a : ℚ) < b := by exact_mod_cast hab
  gcongr

theorem camMarksCanon_bounds (n : ℕ) (hn : 2 ≤ n) :
    ∀ m ∈ (List.range n).map (fun i : ℕ => (i : ℚ) / n + 1 / (2 * n)), 0 < m ∧ m < 1 := by
  intro m hm
  rw [List.mem_map] at hm
  obtain ⟨i, hi, rfl⟩ := hm
  rw [List.mem_range] at hi
  have hnq : (0 : ℚ) < n := by exact_mod_cast lt_of_lt_of_le Nat.zero_lt_two hn
  constructor
  · have h0 : (0 : ℚ) ≤ (i : ℚ) / n := by positivity
    have h2 : (0 : ℚ) < 1 / (2 * n) := by
      apply div_pos one_pos
      linarith
    linarith
  · have h1 : (i : ℚ) + 1 ≤ n := by exact_mod_cast hi
    have heq : (i : ℚ) / n + 1 / (2 * n) = ((i : ℚ) + 1 / 2) / n := by ring
    rw [heq, div_lt_one hnq]
    linarith

theorem camSortKey_one {y : List ℚ} (hy : y.Sorted (· ≤ ·)) : camSortKey 1 y = y := by
  have h1 : y.map (fun v => ((1 : ℤ) : ℚ) * v) = y := by simp
  rw [camSortKey, h1, List.Sorted.insertionSort_eq hy, h1]

/-- C4: a `CAM` model with `cam_order = +1` fitted on a monotonically increasing
`(an, y)` pairing (strictly increasing rank statistics, nondecreasing targets):
predicting at the training rank statistics reproduces the training `y` exactly
(over `ℚ` the "interpolation tolerance" is zero), and a rank statistic below
(above) the training range yields the smallest (largest) training `y` value
(`y` is ascending, so its head and last element) — clamping, no extrapolation. -/
theorem cam_roundtrip_and_clamp (an y : List ℚ) (m : CamFitted)
    (han : an.Sorted (· < ·)) (hy : y.Sorted (· ≤ ·))
    (hlen : an.length = y.length) (hn : 2 ≤ y.length)
    (hfit : camFitInner 1 an y = .ok m) :
    camPredictInner m an = y ∧
    (∀ t : ℚ, (∀ a ∈ an, t < a) → camPredictInner m [t] = [y.headD 0]) ∧
    (∀ t : ℚ, (∀ a ∈ an, a < t) → camPredictInner m [t] = [y.getLastD 0]) := by
  have hyk : camSortKey 1 y = y := camSortKey_one hy
  have hank : an.insertionSort (· ≤ ·) = an :=
    List.Sorted.insertionSort_eq (han.imp fun hab => le_of_lt hab)
  rw [camFitInner, hyk, camMarks_eq y.length hn, hank] at hfit
  injection hfit with hm
  subst hm
  set mk : List ℚ := (List.range y.length).map (fun i : ℕ => (i : ℚ) / y.length + 1 / (2 * y.length))
    with hmk
  have hmklen : mk.length = y.length := by simp [hmk]
  have hmksort : mk.Pairwise (· < ·) := camMarksCanon_sorted y.length hn
  have hmkbounds := camMarksCanon_bounds y.length hn
  rw [← hmk] at hmkbounds
  refine ⟨?_, ?_, ?_⟩
  · -- round trip on the training rank statistics
    apply List.ext_getElem
    · simp [camPredictInner, hlen]
    intro i h1 h2
    have hian : i < an.length := by
      simpa [camPredictInner] using h1
    have himk : i < mk.length := by omega
    have hz1 : i < (an.zip mk).length := by
      rw [List.length_zip]
      exact lt_min hian himk
    have hz2 : i < (mk.zip y).length := by
      rw [List.length_zip]
      exact lt_min himk h2
    have step1 := interp_node_getD 0 1 (an.zip mk) (pairwise_fst_zip mk han) i hz1
    rw [getD_zip_eq hian himk] at step1
    have step2 := interp_node_getD (y.headD 0) (y.getLastD 0) (mk.zip y)
      (pairwise_fst_zip y hmksort) i hz2
    rw [getD_zip_eq himk h2] at step2
    simp only [camPredictInner, List.getElem_map, camAnToMark, camMarkToY]
    rw [← List.getD_eq_getElem an 0 hian, ← List.getD_eq_getElem y 0 h2]
    dsimp at step1 step2 ⊢
    rw [step1]
    exact step2
  · -- clamping below the training range
    intro t ht
    have h1 : interp 0 1 (an.zip mk) t = 0 := by
      apply interp_below
      rintro ⟨p1, p2⟩ hp
      exact ht p1 (List.of_mem_zip hp).1
    have h2 : interp (y.headD 0) (y.getLastD 0) (mk.zip y) 0 = y.headD 0 := by
      apply interp_below
      rintro ⟨p1, p2⟩ hp
      exact (hmkbounds p1 (List.of_mem_zip hp).1).1
    simp only [camPredictInner, List.map_cons, List.map_nil, camAnToMark, camMarkToY]
    rw [h1, h2]
  · -- clamping above the training range
    intro t ht
    have hanpos : 0 < an.length := by omega
    have h1 : interp 0 1 (an.zip mk) t = 1 := by
      apply interp_above
      · apply List.ne_nil_of_length_pos
        rw [List.length_zip]
        exact lt_min hanpos (by omega)
      · rintro ⟨p1, p2⟩ hp
        exact ht p1 (List.of_mem_zip hp).1
    have h2 : interp (y.headD 0) (y.getLastD 0) (mk.zip y) 1 = y.getLastD 0 := by
      apply interp_above
      · apply List.ne_nil_of_length_pos
        rw [List.length_zip]
        exact lt_min (by omega) (by omega)
      · rintro ⟨p1, p2⟩ hp
        exact (hmkbounds p1 (List.of_mem_zip hp).1).2
    simp only [camPredictInner, List.map_cons, List.map_nil, camAnToMark, camMarkToY]
    rw [h1, h2]

theorem camFitInner_example :
    camFitInner 1 [0, 1] [3, 5] = .ok ⟨[0, 1], [1 / 4, 3 / 4], [3, 5]⟩ := by
  norm_num [camFitInner, camSortKey, camMarks, List.insertionSort,
    List.orderedInsert, List.range_succ]

theorem cam_roundtrip_and_clamp_witness :
    camPredictInner ⟨[0, 1], [1 / 4, 3 / 4], [3, 5]⟩ [0, 1] = [3, 5] :=
  (cam_roundtrip_and_clamp [0, 1] [3, 5] ⟨[0, 1], [1 / 4, 3 / 4], [3, 5]⟩
    (by decide) (by decide) rfl (by decide) camFitInner_example).1

/-! ## The `PredictionModel` base-class checks
(models `src/relaxed/models.py`, lines 12-41) -/

/-- `x.shape[1]` of a 2-d array embedded as a list of rows. -/
def ncols {α : Type} (x : List (List α)) : ℕ := (x.headD []).length

/-- A list of rows is a 2-d ndarray when it is nonempty and rectangular
(`np.array` of a ragged or empty list of rows does not have `ndim == 2`). -/
def ndim2 {α : Type} (x : List (List α)) : Bool :=
  !x.isEmpty && x.all (fun r => r.length == ncols x)

/-- `np.sum(np.isnan(x)) != 0` for a 2-d array (`none` plays the role of NaN). -/
def hasNaN2 (x : List (List (Option ℚ))) : Bool :=
  x.any (fun r => r.any (fun v => v.isNone))

/-- `np.sum(np.isnan(y)) != 0` for a 1-d array. -/
def hasNaN1 (y : List (Option ℚ)) : Bool :=
  y.any (fun v => v.isNone)

/-- Strip a NaN-checked 2-d array back to plain rationals (the check guarantees
every entry is `some`, so the default is inert). -/
def stripM (x : List (List (Option ℚ))) : List (List ℚ) :=
  x.map (fun r => r.map (fun v => v.getD 0))

/-- Strip a NaN-checked 1-d array back to plain rationals. -/
def strip1 (y : List (Option ℚ)) : List ℚ :=
  y.map (fun v => v.getD 0)

/-- The four asserts of `PredictionModel.fit` (models.py lines 25-30): no NaN in
`x` or `y`, equal row counts, `y` one-dimensional (guaranteed here by the
embedding of `y` as a 1-d array), `x` two-dimensional with `n_features`
columns. -/
def pmFitChecks (n_features : ℕ) (x : List (List (Option ℚ)))
    (y : List (Option ℚ)) : Bool :=
  !hasNaN2 x && !hasNaN1 y && (x.length == y.length) && ndim2 x &&
    (ncols x == n_features)

/-- The four asserts of `PredictionModel.predict` (models.py lines 19-22):
`x` two-dimensional, `n_features` columns, no NaN, and the model trained. -/
def pmPredictChecks (n_features : ℕ) (trained : Bool)
    (x : List (List (Option ℚ))) : Bool :=
  ndim2 x && (ncols x == n_features) && !hasNaN2 x && trained

/-! ## The `CAM` model object (models `src/relaxed/models.py`, lines 219-255) -/

/-- The attribute state of a `CAM` instance: constructor arguments, the
`trained` flag of the base class, and the fit attributes `an_to_mark` /
`mark_to_Y` (held as the node data `CamFitted`, `none` before fitting). -/
structure CAMModel where
  n_features : ℕ
  mass_bins : List ℚ
  mrange : List ℚ
  cam_order : ℤ
  trained : Bool
  fitres : Option CamFitted
  deriving DecidableEq

/-- `CAM.__init__`: asserts `n_features == len(mass_bins)`,
`cam_order in {-1, 1}`, `len(mrange) == 2`, and (from
`PredictionModel.__init__`) `n_features > 0`. -/
def camInit (n_features : ℕ) (mass_bins mrange : List ℚ) (cam_order : ℤ) :
    Except PyErr CAMModel :=
  if n_features = mass_bins.length ∧ 0 < n_features ∧
      (cam_order = 1 ∨ cam_order = -1) ∧ mrange.length = 2 then
    .ok ⟨n_features, mass_bins, mrange, cam_order, false, none⟩
  else .error .assertionError

/-- `CAM.fit` through the base-class wrapper: run the `PredictionModel.fit`
asserts, compute `an_train = get_an_from_am(am, mass_bins, mrange)` (the
external collaborator `g`), `assert an_train.shape[0] == am.shape[0]`, build
the interpolators, and only then set `self.trained = True`.  An exception at
any step leaves the model untrained (`Except.error` returns no new state). -/
def camFit (g : List (List ℚ) → List ℚ → List ℚ → List ℚ) (m : CAMModel)
    (x : List (List (Option ℚ))) (y : List (Option ℚ)) : Except PyErr CAMModel :=
  if pmFitChecks m.n_features x y then
    if (g (stripM x) m.mass_bins m.mrange).length = (stripM x).length then
      match camFitInner m.cam_order (g (stripM x) m.mass_bins m.mrange) (strip1 y) with
      | .ok f => .ok { m with trained := true, fitres := some f }
      | .error e => .error e
    else .error .assertionError
  else .error .assertionError

theorem camSortKey_length (c : ℤ) (y : List ℚ) : (camSortKey c y).length = y.length := by
  simp [camSortKey]

/-- C10: `CAM` fitting needs at least two training samples.  With exactly one
row the half-rank-step offset `marks[1] - marks[0]` indexes a second mark that
does not exist, so `fit` raises and the model never becomes trained (no
successful state is returned); for `n ≥ 2` the mark construction succeeds. -/
theorem cam_fit_needs_two_samples
    (g : List (List ℚ) → List ℚ → List ℚ → List ℚ) (m : CAMModel)
    (x : List (List (Option ℚ))) (y : List (Option ℚ)) (hx : x.length = 1) :
    (∃ e, camFit g m x y = .error e) ∧
    (∀ n, 2 ≤ n → ∃ ms, camMarks n = .ok ms) := by
  constructor
  · rw [camFit]
    by_cases hchk : pmFitChecks m.n_features x y
    case neg =>
      rw [if_neg hchk]
      exact ⟨_, rfl⟩
    case pos =>
      rw [if_pos hchk]
      have hy1 : y.length = 1 := by
        have := hchk
        simp only [pmFitChecks, Bool.and_eq_true, beq_iff_eq] at this
        omega
      by_cases hlen : (g (stripM x) m.mass_bins m.mrange).length = (stripM x).length
      case neg =>
        rw [if_neg hlen]
        exact ⟨_, rfl⟩
      case pos =>
        rw [if_pos hlen]
        have hmarks : camMarks (camSortKey m.cam_order (strip1 y)).length =
            .error .indexError := by
          rw [camSortKey_length]
          have : (strip1 y).length = 1 := by simp [strip1, hy1]
          rw [this]
          rfl
        rw [camFitInner, hmarks]
        exact ⟨_, rfl⟩
  · intro n hn
    exact ⟨_, camMarks_eq n hn⟩

theorem cam_fit_needs_two_samples_witness :
    (∃ e, camFit (fun am _ _ => am.map (fun r => r.headD 0))
        ⟨1, [0], [0, 1], 1, false, none⟩ [[some 1]] [some 2] = .error e) ∧
    (∀ n, 2 ≤ n → ∃ ms, camMarks n = .ok ms) :=
  cam_fit_needs_two_samples (fun am _ _ => am.map (fun r => r.headD 0))
    ⟨1, [0], [0, 1], 1, false, none⟩ [[some 1]] [some 2] rfl

/-! ## The `MultiVariateGaussian` model
(models `src/relaxed/models.py`, lines 143-216)

The claims about this class hinge on which instance attributes exist, so the
instance is embedded as its Python `__dict__`: a name-to-value association
list.  `_fit` stores `self.mu1`, `self.mu2`, `self.Sigma`, `self.rho`,
`self.sigma_cond` (and the wrapper sets `self.trained`); no method of the class
or its bases ever assigns `self.Sigma12` or `self.Sigma22`, so `_predict`'s
lookups of those names are resolved against the dictionary and can fail. -/

/-- A Python instance attribute value. -/
inductive AttrVal : Type
  | natV (n : ℕ)
  | boolV (b : Bool)
  | ratV (q : ℚ)
  | vecV (v : List ℚ)
  | matV (A : List (List ℚ))
  | noneV
  deriving DecidableEq

/-- A Python instance `__dict__`; assignment prepends, lookup takes the newest
binding. -/
abbrev Attrs := List (String × AttrVal)

/-- Python attribute lookup: `AttributeError` when the name was never
assigned. -/
def getattr (d : Attrs) (name : String) : Except PyErr AttrVal :=
  match d.lookup name with
  | some v => .ok v
  | none => .error (.attributeError name)

/-- Python attribute assignment. -/
def setattr (d : Attrs) (name : String) (v : AttrVal) : Attrs :=
  (name, v) :: d

/-- 2-d float arrays (NaN-free, e.g. post-check) as lists of rows. -/
abbrev Mat := List (List ℚ)

/-- Dot product of two vectors (`np.dot` on equal-length 1-d arrays). -/
def dotQ (v w : List ℚ) : ℚ := ((v.zip w).map (fun p => p.1 * p.2)).sum

/-- Column `j` of a matrix. -/
def matCol (A : Mat) (j : ℕ) : List ℚ := A.map (fun r => r.getD j 0)

/-- Matrix-vector product. -/
def matVecQ (A : Mat) (v : List ℚ) : List ℚ := A.map (fun r => dotQ r v)

/-- Row-vector-matrix product `v · A`. -/
def rowVecMatQ (v : List ℚ) (A : Mat) : List ℚ :=
  (List.range (ncols A)).map (fun j => dotQ v (matCol A j))

/-- `np.mean` of a 1-d array. -/
def meanQ (l : List ℚ) : ℚ := l.sum / l.length

/-- `np.cov(a, b)[0, 1]` with the default `ddof=1`: the sample covariance
`Σ (aᵢ - ā)(bᵢ - b̄) / (n - 1)`. -/
def covQ (a b : List ℚ) : ℚ :=
  ((a.zip b).map (fun p => (p.1 - meanQ a) * (p.2 - meanQ b))).sum /
    ((a.length : ℚ) - 1)

/-- Determinant by Laplace expansion along the first row (the mathematical
value `np.linalg.inv` divides by). -/
def det : Mat → ℚ
  | [] => 1
  | r :: rs =>
    ((List.range r.length).map
      (fun j => (-1 : ℚ) ^ j * r.getD j 0 *
        det (rs.map (fun row => row.eraseIdx j)))).sum
termination_by A => A.length
decreasing_by simp [List.length_map]

/-- The adjugate matrix: `adj[i][j] = (-1)^(i+j) det(A with row j, col i removed)`. -/
def adjugateM (A : Mat) : Mat :=
  (List.range A.length).map (fun i =>
    (List.range A.length).map (fun j =>
      (-1 : ℚ) ^ (i + j) * det ((A.eraseIdx j).map (fun row => row.eraseIdx i))))

/-- `np.linalg.inv`: the exact matrix inverse `adj(A) / det(A)`, raising
`LinAlgError` on a singular matrix. -/
def matInv (A : Mat) : Except PyErr Mat :=
  if det A = 0 then .error .linAlgError
  else .ok ((adjugateM A).map (fun r => r.map (fun v => v / det A)))

/-- Column `i` of `z = np.vstack([y.reshape(1, -1), x.T]).T`: column 0 is `y`,
column `i + 1` is feature column `i` of `x`. -/
def zcolQ (x : Mat) (y : List ℚ) (i : ℕ) : List ℚ :=
  if i = 0 then y else matCol x (i - 1)

/-- The covariance matrix loop of `MultiVariateGaussian._fit` (lines 177-191):
entries with `i ≤ j` are pairwise covariances, entries below the diagonal
mirror the upper triangle.  (The pairwise NaN filtering `keep` is inert here:
the `PredictionModel.fit` wrapper has already rejected any NaN.) -/
def mvgSigma (nf : ℕ) (x : Mat) (y : List ℚ) : Mat :=
  (List.range (nf + 1)).map (fun i =>
    (List.range (nf + 1)).map (fun j =>
      if i ≤ j then covQ (zcolQ x y i) (zcolQ x y j)
      else covQ (zcolQ x y j) (zcolQ x y i)))

/-- `MultiVariateGaussian.__init__` in the default transform configuration
`use_qt = use_logs = False` (under which `PredictionModelTransform.fit` and
`.predict` delegate directly to the base class, models.py lines 73-74, 84-85).
The assigned attribute names are exactly those of `PredictionModel.__init__`,
`PredictionModelTransform.__init__` and `MultiVariateGaussian.__init__`. -/
def mvgInit (n_features : ℕ) : Except PyErr Attrs :=
  if 0 < n_features then
    .ok [("n_features", .natV n_features), ("trained", .boolV false),
      ("use_qt", .boolV false), ("use_logs", .boolV false),
      ("qt_x", .noneV), ("qt_y", .noneV),
      ("mu1", .noneV), ("mu2", .noneV), ("Sigma", .noneV),
      ("rho", .noneV), ("sigma_cond", .noneV)]
  else .error .assertionError

/-- `MultiVariateGaussian.fit` (wrapper asserts, then `_fit`).  `_fit` stores
`mu1` (`np.nanmean(y)`, a 1×1 array held here as its scalar entry), `mu2` (the
feature means), `Sigma`, `rho` and `sigma_cond = Σ11 − Σ12 Σ22⁻¹ Σ12ᵀ` (1×1,
held as a scalar); the wrapper then sets `trained = True`.  With fewer than two
samples `np.cov` (ddof=1) produces NaN and the `assert np.all(~np.isnan(Sigma))`
on line 194 fires.  `rho` is the correlation matrix, which needs real square
roots unavailable over `ℚ`; it is stored as an opaque `noneV` since no code
relevant to any claim ever reads its value (only the name matters here). -/
def mvgFit (d : Attrs) (x : List (List (Option ℚ))) (y : List (Option ℚ)) :
    Except PyErr Attrs :=
  match getattr d "n_features" with
  | .ok (.natV nf) =>
    if pmFitChecks nf x y then
      if y.length < 2 then .error .assertionError
      else
        match matInv ((mvgSigma nf (stripM x) (strip1 y)).tail.map
            (fun r => r.tail)) with
        | .error e => .error e
        | .ok inv22 =>
          .ok (setattr (setattr (setattr (setattr (setattr (setattr d
            "mu1" (.ratV (meanQ (strip1 y))))
            "mu2" (.vecV ((List.range nf).map
              (fun j => meanQ (matCol (stripM x) j)))))
            "Sigma" (.matV (mvgSigma nf (stripM x) (strip1 y))))
            "rho" .noneV)
            "sigma_cond" (.ratV
              (((mvgSigma nf (stripM x) (strip1 y)).headD []).getD 0 0 -
                dotQ ((mvgSigma nf (stripM x) (strip1 y)).headD []).tail
                  (matVecQ inv22
                    ((mvgSigma nf (stripM x) (strip1 y)).headD []).tail))))
            "trained" (.boolV true))
    else .error .assertionError
  | _ => .error .typeError

/-- `MultiVariateGaussian.predict` (base-class asserts, then `_predict`,
models.py lines 211-216).  `_predict` evaluates
`self.mu1 + self.Sigma12.dot(np.linalg.inv(self.Sigma22)).dot(x - self.mu2)`
left to right: it reads `self.mu1`, then `self.Sigma12` and `self.Sigma22` —
attribute lookups that raise `AttributeError` when the names were never
assigned.  When all attributes resolve, the result is one conditional mean
`μ1 + Σ12 Σ22⁻¹ (xᵢ − μ2)` per input row. -/
def mvgPredict (d : Attrs) (x : List (List (Option ℚ))) : Except PyErr (List ℚ) :=
  match getattr d "n_features", getattr d "trained" with
  | .ok (.natV nf), .ok (.boolV tr) =>
    if pmPredictChecks nf tr x then
      match getattr d "mu1" with
      | .error e => .error e
      | .ok mu1v =>
        match getattr d "Sigma12" with
        | .error e => .error e
        | .ok s12v =>
          match getattr d "Sigma22" with
          | .error e => .error e
          | .ok s22v =>
            match mu1v, s12v, s22v, getattr d "mu2" with
            | .ratV mu1, .vecV s12, .matV s22, .ok (.vecV mu2) =>
              match matInv s22 with
              | .error e => .error e
              | .ok inv22 =>
                .ok ((stripM x).map (fun r =>
                  mu1 + dotQ (rowVecMatQ s12 inv22)
                    ((r.zip mu2).map (fun p => p.1 - p.2))))
            | _, _, _, _ => .error .typeError
    else .error .assertionError
  | _, _ => .error .typeError

/-- The attribute dictionary produced by `MultiVariateGaussian(n_features=1)`
(all fit attributes still `None`, `trained` false). -/
def mvgExampleAttrs : Attrs :=
  [("n_features", .natV 1), ("trained", .boolV false),
   ("use_qt", .boolV false), ("use_logs", .boolV false),
   ("qt_x", .noneV), ("qt_y", .noneV),
   ("mu1", .noneV), ("mu2", .noneV), ("Sigma", .noneV),
   ("rho", .noneV), ("sigma_cond", .noneV)]

/-- A concrete valid training input: `x = [[1], [2], [4]]`. -/
def mvgExampleX : List (List (Option ℚ)) := [[some 1], [some 2], [some 4]]

/-- A concrete valid training target: `y = [1, 2, 3]`. -/
def mvgExampleY : List (Option ℚ) := [some 1, some 2, some 3]

/-- Fitting the example Gaussian model succeeds (the feature covariance is
`7/3 ≠ 0`, so the conditioning step inverts), the fitted dictionary has
`trained = True`, holds a `mu1` value — and still has no `Sigma12` entry,
because `_fit` never assigns one. -/
theorem mvgFit_example_ok :
    ∃ d, mvgFit mvgExampleAttrs mvgExampleX mvgExampleY = .ok d ∧
      d.lookup "Sigma12" = none ∧
      d.lookup "trained" = some (.boolV true) ∧
      d.lookup "n_features" = some (.natV 1) ∧
      (∃ v, d.lookup "mu1" = some v) := by
  unfold mvgFit
  rw [show getattr mvgExampleAttrs "n_features" = Except.ok (AttrVal.natV 1) from rfl]
  dsimp only
  rw [if_pos (show pmFitChecks 1 mvgExampleX mvgExampleY = true by decide)]
  rw [if_neg (show ¬ (mvgExampleY.length < 2) by decide)]
  have hdet : det ((mvgSigma 1 (stripM mvgExampleX) (strip1 mvgExampleY)).tail.map
      (fun r => r.tail)) = 7 / 3 := by
    norm_num [mvgSigma, covQ, meanQ, zcolQ, matCol, stripM, strip1, det,
      mvgExampleX, mvgExampleY, List.range_succ]
  rw [matInv, if_neg (by rw [hdet]; norm_num)]
  dsimp only
  exact ⟨_, rfl, rfl, rfl, rfl, ⟨_, rfl⟩⟩

/-- `MultiVariateGaussian.predict` on any dictionary that a successful fit can
produce — `n_features` present, `trained` true, `mu1` assigned, `Sigma12` never
assigned — raises `AttributeError('Sigma12')` on any input passing every
predict precondition: the expression `self.mu1 + self.Sigma12.dot(...)`
resolves `self.mu1` and then fails on `self.Sigma12`. -/
theorem mvgPredict_sigma12_error (d : Attrs) (x : List (List (Option ℚ))) (nf : ℕ)
    (hnf : d.lookup "n_features" = some (.natV nf))
    (htr : d.lookup "trained" = some (.boolV true))
    (hmu : ∃ v, d.lookup "mu1" = some v)
    (hs : d.lookup "Sigma12" = none)
    (hx : pmPredictChecks nf true x = true) :
    mvgPredict d x = .error (.attributeError "Sigma12") := by
  obtain ⟨v, hv⟩ := hmu
  unfold mvgPredict
  rw [show getattr d "n_features" = Except.ok (AttrVal.natV nf) by simp [getattr, hnf]]
  rw [show getattr d "trained" = Except.ok (AttrVal.boolV true) by simp [getattr, htr]]
  dsimp only
  rw [if_pos hx]
  rw [show getattr d "mu1" = Except.ok v by simp [getattr, hv]]
  dsimp only
  rw [show getattr d "Sigma12" = Except.error (PyErr.attributeError "Sigma12") by
    simp [getattr, hs]]

/-- C1: the claim states that `predict(x)` on a trained `MultiVariateGaussian`
returns the conditional mean `μ1 + Σ12 Σ22⁻¹ (x − μ2)` from the covariance
blocks stored at fit time.  The code cannot: `_fit` stores the full matrix in
`self.Sigma` only, and `_predict` reads `self.Sigma12` / `self.Sigma22`,
attributes no method ever assigns, so every predict call raises
`AttributeError('Sigma12')`.  Evaluation at the failing input: the model with
one feature fitted on `x = [[1], [2], [4]]`, `y = [1, 2, 3]`, predicting on the
valid input `[[2]]`. -/
theorem mvg_predict_sigma12_attribute_error :
    ∃ d : Attrs,
      mvgInit 1 = .ok mvgExampleAttrs ∧
      mvgFit mvgExampleAttrs mvgExampleX mvgExampleY = .ok d ∧
      mvgPredict d [[some 2]] = .error (.attributeError "Sigma12") := by
  obtain ⟨d, hfit, hs, htr, hnf, hmu⟩ := mvgFit_example_ok
  exact ⟨d, rfl, hfit, mvgPredict_sigma12_error d _ 1 hnf htr hmu hs (by decide)⟩

/-- C5: the claim states that `predict(x)` rejects the call when the model is
untrained, `x` is not 2-d, has the wrong column count, or contains missing
values, and otherwise returns one prediction per input row.  The rejection
clauses match the four asserts of `PredictionModel.predict`, but the success
clause fails for the `MultiVariateGaussian` instance: here is a trained model
and an input satisfying every precondition (`pmPredictChecks` is exactly the
assert conjunction) on which predict raises `AttributeError('Sigma12')` instead
of returning a prediction list. -/
theorem mvg_predict_preconditions_insufficient :
    ∃ d : Attrs,
      mvgFit mvgExampleAttrs mvgExampleX mvgExampleY = .ok d ∧
      d.lookup "trained" = some (.boolV true) ∧
      pmPredictChecks 1 true [[some 3]] = true ∧
      mvgPredict d [[some 3]] = .error (.attributeError "Sigma12") := by
  obtain ⟨d, hfit, hs, htr, hnf, hmu⟩ := mvgFit_example_ok
  exact ⟨d, hfit, htr, by decide,
    mvgPredict_sigma12_error d _ 1 hnf htr hmu hs (by decide)⟩

/-! ## The halo `Param` object (models `src/intro/src/Params.py`, lines 48-84) -/

/-- A catalog for `Params.py`: a table indexable by column name. -/
abbrev PCat := String → List ℚ

/-- The attribute state of a `Param` instance: the registry entry copied by the
constructor out of `params_dict[key]` (`key`, `derive`, `log`; the display
attributes play no role in the claims), and the `values` attribute, which
`__init__` sets to `None` and only `set_values` ever overwrites. -/
structure Param where
  key : String
  derive : Option (PCat → List ℚ)
  log : Bool
  values : Option (List ℚ)

/-- `Param.get_values(cat)` (lines 67-81): if `self.values` is not `None`,
return it immediately; otherwise read the raw column (`cat[self.key]`) or
evaluate the derivation rule on `cat`, apply `np.log` (the opaque elementwise
collaborator `npLog`) when the log flag is set, and return the result.  The
method assigns no attribute, so the instance comes back unchanged — made
explicit by returning it as the second component. -/
def paramGetValues (npLog : ℚ → ℚ) (p : Param) (cat : PCat) : List ℚ × Param :=
  match p.values with
  | some vs => (vs, p)
  | none =>
    match p.derive with
    | none => (if p.log then (cat p.key).map npLog else cat p.key, p)
    | some f => (if p.log then (f cat).map npLog else f cat, p)

/-- `Param.set_values(cat)` (lines 83-84): `self.values = self.get_values(cat)`. -/
def paramSetValues (npLog : ℚ → ℚ) (p : Param) (cat : PCat) : Param :=
  { p with values := some (paramGetValues npLog p cat).1 }

/-- C2 counterexample: a direct-column `Param` (key `mvir`, no log) evaluated
on a catalog `c1` with `mvir = [1]` returns `[1]` and leaves the instance
unchanged (`values` still `None`); the next `get_values` on a catalog `c2` with
`mvir = [2]` returns `[2] ≠ [1]` — not the first call's array, contradicting
"the result is cached on the object and a subsequent call returns that same
cached array regardless of the catalog argument". -/
theorem param_get_values_does_not_cache :
    (paramGetValues id ⟨"mvir", none, false, none⟩
      (fun k => if k = "mvir" then [1] else [])).1 = [1] ∧
    (paramGetValues id ⟨"mvir", none, false, none⟩
      (fun k => if k = "mvir" then [1] else [])).2 = ⟨"mvir", none, false, none⟩ ∧
    (paramGetValues id ⟨"mvir", none, false, none⟩
      (fun k => if k = "mvir" then [2] else [])).1 = [2] ∧
    ([2] : List ℚ) ≠ [1] :=
  ⟨rfl, rfl, rfl, by decide⟩

/-- C2 amended: `get_values` itself never caches — it always leaves the
instance unchanged, and while `values` is unset it recomputes from whichever
catalog it is given.  The memoization the spec describes exists only through
`set_values`: after `set_values(c1)`, every later `get_values(c2)` returns the
array stored from `c1`, regardless of the catalog argument `c2`. -/
theorem param_cache_only_via_set_values (npLog : ℚ → ℚ) (p : Param) (c1 c2 : PCat) :
    (paramGetValues npLog p c1).2 = p ∧
    (paramGetValues npLog (paramSetValues npLog p c1) c2).1 =
      (paramGetValues npLog p c1).1 := by
  constructor
  · cases hv : p.values with
    | some vs => simp [paramGetValues, hv]
    | none =>
      cases hd : p.derive with
      | none => simp [paramGetValues, hv, hd]
      | some f => simp [paramGetValues, hv, hd]
  · simp [paramSetValues, paramGetValues]

/-! ## `HaloFilter` (models `src/relaxed/halo_filters.py`, lines 121-142) -/

/-- A catalog row, indexable by column name. -/
abbrev Row := String → ℚ

/-- A catalog table: one `Row` per halo (supports boolean-mask selection). -/
abbrev HTable := List Row

/-- Boolean-mask row selection `cat[mask]`; numpy raises when a boolean mask's
length differs from the axis length. -/
def maskSelect (rows : HTable) (mask : List Bool) : Except PyErr HTable :=
  if mask.length = rows.length then
    .ok (((rows.zip mask).filter (fun p => p.2)).map (fun p => p.1))
  else .error .indexError

/-- A filter dictionary: parameter key ↦ boolean predicate over that
parameter's value array (association list in insertion order, as Python dicts
iterate). -/
abbrev Filters := List (String × (List ℚ → List Bool))

/-- `HaloFilter.filter_cat` (lines 126-131): for each `(param, ft)` item in
order, `cat = cat[ft(hparam.get_values(cat))]`.  The collaborator
`halo_parameters.get_hparam` is imported from a module that is not part of
these sources; `g param cat` stands for
`get_hparam(param, log=False).get_values(cat)`, and the property the spec
gives it — one value per catalog row — enters as a hypothesis of `C7`. -/
def filterCat (g : String → HTable → List ℚ) (fs : Filters) (cat : HTable) :
    Except PyErr HTable :=
  match fs with
  | [] => .ok cat
  | (param, ft) :: rest =>
    match maskSelect cat (ft (g param cat)) with
    | .ok cat2 => filterCat g rest cat2
    | .error e => .error e

/-- The halo-catalog object passed to `HaloFilter.__call__`: its `.cat` table
and `.name`. -/
structure HaloCat where
  cat : HTable
  name : String

/-- `HaloFilter.__call__(hcat, copy=True)` (lines 133-142): with `copy=False`
it raises `NotImplementedError` before touching anything; otherwise it
deep-copies `hcat`, filters the copy's table, renames the copy and returns it.
The result pair is `(returned object, the source object after the call)`: every
write (`new_hcat.cat = ...`, `new_hcat.name = ...`) targets the deep copy, so
the source object passes through untouched. -/
def haloFilterCall (g : String → HTable → List ℚ) (fs : Filters) (fname : String)
    (hcat : HaloCat) (copy : Bool) : Except PyErr (HaloCat × HaloCat) :=
  if !copy then .error .notImplementedError
  else
    match filterCat g fs hcat.cat with
    | .ok newcat => .ok (⟨newcat, fname⟩, hcat)
    | .error e => .error e

theorem map_const_true (l : List ℚ) :
    l.map (fun _ => true) = List.replicate l.length true := by
  induction l with
  | nil => rfl
  | cons a t ih => simp [List.replicate_succ, ih]

theorem filter_zip_replicate_true {α : Type} (rows : List α) :
    (((rows.zip (List.replicate rows.length true)).filter
      (fun p => p.2)).map (fun p => p.1)) = rows := by
  induction rows with
  | nil => rfl
  | cons r rs ih =>
    rw [List.length_cons, List.replicate_succ, List.zip_cons_cons,
      List.filter_cons_of_pos rfl, List.map_cons, ih]

theorem filterCat_all_true (g : String → HTable → List ℚ) (fs : Filters)
    (cat : HTable) (hg : ∀ p c, (g p c).length = c.length)
    (hpred : ∀ pf ∈ fs, ∀ vs, pf.2 vs = vs.map (fun _ => true)) :
    filterCat g fs cat = .ok cat := by
  induction fs with
  | nil => rfl
  | cons pf rest ih =>
    obtain ⟨param, ft⟩ := pf
    rw [filterCat]
    have hm : ft (g param cat) = List.replicate cat.length true := by
      have hft := hpred (param, ft) (by simp) (g param cat)
      dsimp only at hft
      rw [hft, map_const_true, hg param cat]
    have hsel : maskSelect cat (ft (g param cat)) = .ok cat := by
      rw [hm, maskSelect, if_pos (by simp), filter_zip_replicate_true]
    rw [hsel]
    exact ih (fun q hq => hpred q (List.mem_cons_of_mem _ hq))

/-- C7: applying a `HaloFilter` whose predicates all return an all-true mask
(of one entry per value, the values being one per catalog row) yields a catalog
with exactly the input's rows in the input's order — and leaves the source
object unchanged. -/
theorem halo_filter_always_true_identity (g : String → HTable → List ℚ)
    (fs : Filters) (fname : String) (hcat : HaloCat)
    (hg : ∀ p c, (g p c).length = c.length)
    (hpred : ∀ pf ∈ fs, ∀ vs, pf.2 vs = vs.map (fun _ => true)) :
    haloFilterCall g fs fname hcat true = .ok (⟨hcat.cat, fname⟩, hcat) := by
  rw [haloFilterCall]
  rw [filterCat_all_true g fs hcat.cat hg hpred]
  rfl

theorem halo_filter_always_true_identity_witness :
    haloFilterCall (fun _ c => c.map (fun _ => 0))
      [("mvir", fun vs => vs.map (fun _ => true))] "filtered_cat"
      ⟨[fun _ => 1], "bolshoi"⟩ true =
      .ok (⟨[fun _ => 1], "filtered_cat"⟩, ⟨[fun _ => 1], "bolshoi"⟩) :=
  halo_filter_always_true_identity (fun _ c => c.map (fun _ => 0))
    [("mvir", fun vs => vs.map (fun _ => true))] "filtered_cat"
    ⟨[fun _ => 1], "bolshoi"⟩ (fun p c => by simp) (by simp)

theorem map_fst_zip_sublist {α β : Type} :
    ∀ (l : List α) (ms : List β), ((l.zip ms).map Prod.fst).Sublist l
  | [], _ => by simp
  | _ :: _, [] => by simp
  | a :: l, b :: ms => by
    rw [List.zip_cons_cons, List.map_cons]
    exact List.Sublist.cons₂ a (map_fst_zip_sublist l ms)

theorem maskSelect_sublist {rows : HTable} {mask : List Bool} {out : HTable}
    (h : maskSelect rows mask = .ok out) : out.Sublist rows := by
  rw [maskSelect] at h
  by_cases hlen : mask.length = rows.length
  · rw [if_pos hlen] at h
    injection h with h
    subst h
    exact List.Sublist.trans
      (List.Sublist.map Prod.fst (List.filter_sublist (rows.zip mask)))
      (map_fst_zip_sublist rows mask)
  · rw [if_neg hlen] at h
    exact absurd h (by simp)

theorem filterCat_sublist (g : String → HTable → List ℚ) :
    ∀ (fs : Filters) (cat out : HTable),
      filterCat g fs cat = .ok out → out.Sublist cat
  | [], cat, out, h => by
    injection h with h
    subst h
    exact List.Sublist.refl _
  | (param, ft) :: rest, cat, out, h => by
    rw [filterCat] at h
    cases hsel : maskSelect cat (ft (g param cat)) with
    | ok cat2 =>
      rw [hsel] at h
      exact List.Sublist.trans (filterCat_sublist g rest cat2 out h)
        (maskSelect_sublist hsel)
    | error e =>
      rw [hsel] at h
      exact absurd h (by simp)

/-- C8: whenever `HaloFilter.__call__` with the default `copy=True` returns,
the source object comes back exactly as it went in (the method only writes to
the deep copy), and the returned catalog's rows are a sublist of the source
rows: surviving rows keep their values and their relative order. -/
theorem halo_filter_copy_preserves_source (g : String → HTable → List ℚ)
    (fs : Filters) (fname : String) (hcat : HaloCat) (res src : HaloCat)
    (h : haloFilterCall g fs fname hcat true = .ok (res, src)) :
    src = hcat ∧ res.cat.Sublist hcat.cat := by
  rw [haloFilterCall] at h
  cases hfc : filterCat g fs hcat.cat with
  | ok newcat =>
    rw [hfc] at h
    injection h with h
    rw [Prod.mk.injEq] at h
    obtain ⟨h1, h2⟩ := h
    subst h2
    constructor
    · rfl
    · rw [← h1]
      exact filterCat_sublist g fs hcat.cat newcat hfc
  | error e =>
    rw [hfc] at h
    exact absurd h (by simp)

theorem halo_filter_copy_preserves_source_witness :
    (⟨[fun _ => (1 : ℚ), fun _ => -1], "bolshoi"⟩ : HaloCat) =
      ⟨[fun _ => 1, fun _ => -1], "bolshoi"⟩ ∧
    (⟨[fun _ => (1 : ℚ)], "relaxed"⟩ : HaloCat).cat.Sublist
      (⟨[fun _ => (1 : ℚ), fun _ => -1], "bolshoi"⟩ : HaloCat).cat :=
  halo_filter_copy_preserves_source
    (fun _ c => c.map (fun r => r "mvir"))
    [("mvir", fun vs => vs.map (fun v => decide (0 < v)))] "relaxed"
    ⟨[fun _ => 1, fun _ => -1], "bolshoi"⟩
    ⟨[fun _ => 1], "relaxed"⟩ ⟨[fun _ => 1, fun _ => -1], "bolshoi"⟩ (by rfl)

/-- C9: calling a `HaloFilter` with `copy=False` raises `NotImplementedError`
immediately — for every filter dictionary, every value function and every
catalog, before any predicate is evaluated (the result does not depend on
them), so the input object is left untouched; only `copy=True` is supported. -/
theorem halo_filter_copy_false_not_implemented (g : String → HTable → List ℚ)
    (fs : Filters) (fname : String) (hcat : HaloCat) :
    haloFilterCall g fs fname hcat false = .error .notImplementedError := rfl

/-! ## `training_suite` (models `src/relaxed/models.py`, lines 258-298)

The suite instantiates and fits every model variant, so the external
collaborators of the remaining variants (sklearn estimators, `np.log`,
`np.std`, the quantile transformer, and `get_an_from_am`) are bundled as
opaque parameters. -/

/-- The opaque external collaborators: `get_an_from_am` (absent
`relaxed.analysis`), `sklearn.linear_model.LinearRegression().fit` (returning
the coefficient/intercept data), `sklearn.linear_model.Lasso(alpha).fit`,
`SelectFromModel(...).estimator.coef_`, `np.log`, `np.std`, and the fitted
`QuantileTransformer.transform` for x and y. -/
structure Externals where
  g : List (List ℚ) → List ℚ → List ℚ → List ℚ
  linFit : List (List ℚ) → List ℚ → List ℚ × ℚ
  lassoFitE : ℚ → List (List ℚ) → List ℚ → List ℚ × ℚ
  lassoCoef : ℚ → List (List ℚ) → List ℚ → List ℚ
  npLog : ℚ → ℚ
  npStd : List ℚ → ℚ
  qtX : List (List (Option ℚ)) → List (List (Option ℚ))
  qtY : List (Option ℚ) → List (Option ℚ)

/-- `PredictionModelTransform.fit`'s data transform (models.py lines 57-74):
quantile transform, or elementwise `np.log` (`log(NaN) = NaN`), or neither —
applied before the base-class checks. -/
def transApply (ext : Externals) (use_qt use_logs : Bool)
    (x : List (List (Option ℚ))) (y : List (Option ℚ)) :
    List (List (Option ℚ)) × List (Option ℚ) :=
  if use_qt then (ext.qtX x, ext.qtY y)
  else if use_logs then
    (x.map (fun r => r.map (Option.map ext.npLog)), y.map (Option.map ext.npLog))
  else (x, y)

/-- `MultiVariateGaussian.__init__(n_features, use_qt, use_logs)`: the general
constructor (assert `n_features > 0` and `use_logs + use_qt <= 1`). -/
def mvgInitFlags (n_features : ℕ) (use_qt use_logs : Bool) : Except PyErr Attrs :=
  if 0 < n_features ∧ ¬(use_qt ∧ use_logs) then
    .ok [("n_features", .natV n_features), ("trained", .boolV false),
      ("use_qt", .boolV use_qt), ("use_logs", .boolV use_logs),
      ("qt_x", .noneV), ("qt_y", .noneV),
      ("mu1", .noneV), ("mu2", .noneV), ("Sigma", .noneV),
      ("rho", .noneV), ("sigma_cond", .noneV)]
  else .error .assertionError

/-- `MultiVariateGaussian.fit` through `PredictionModelTransform.fit`: read the
transform flags, transform the data accordingly, then run the base-class fit
(`mvgFit`). -/
def mvgFitTrans (ext : Externals) (d : Attrs) (x : List (List (Option ℚ)))
    (y : List (Option ℚ)) : Except PyErr Attrs :=
  match getattr d "use_qt", getattr d "use_logs" with
  | .ok (.boolV uq), .ok (.boolV ul) =>
    mvgFit d (transApply ext uq ul x y).1 (transApply ext uq ul x y).2
  | _, _ => .error .typeError

/-- The keyword-argument dictionaries `training_suite` may pass to a model
constructor.  `badKw` stands for any keyword set that matches no parameter of
the constructor being called (a Python `TypeError` at the call). -/
inductive ModelKwargs : Type
  | noKw
  | transKw (use_qt use_logs : Bool)
  | lassoKw (alpha : ℚ) (use_qt use_logs : Bool)
  | camKw (mass_bins mrange : List ℚ) (cam_order : ℤ)
  | badKw
  deriving DecidableEq

/-- The state of one model of `available_models`, tagged by variant, with the
variant's constructor data, `trained` flag and fit attributes. -/
inductive ModelState : Type
  | gaussianM (d : Attrs)
  | camM (m : CAMModel)
  | linearM (nf : ℕ) (use_qt use_logs : Bool) (trained : Bool)
      (reg : Option (List ℚ × ℚ))
  | lassoM (nf : ℕ) (alpha : ℚ) (use_qt use_logs : Bool) (trained : Bool)
      (reg : Option (List ℚ × ℚ)) (importance : Option (List ℚ))
  | lognormalM (nf : ℕ) (trained : Bool) (musig : Option (ℚ × ℚ))
  deriving DecidableEq

/-- The `self.trained` flag of a model (for the Gaussian the attribute is read
from the instance dictionary). -/
def ModelState.isTrained : ModelState → Bool
  | .gaussianM d =>
    match d.lookup "trained" with
    | some (.boolV b) => b
    | _ => false
  | .camM m => m.trained
  | .linearM _ _ _ t _ => t
  | .lassoM _ _ _ _ t _ _ => t
  | .lognormalM _ t _ => t

/-- `available_models[m](n_features, **kwargs)`: dispatch to the variant's
constructor with its asserts (`n_features > 0` from `PredictionModel`,
`use_logs + use_qt <= 1` from the transform wrapper, the `CAM` asserts);
keyword sets not matching the constructor's signature raise `TypeError`.
(`LASSO`'s `alpha` defaults to `0.1`.) -/
def mkModel (name : String) (nf : ℕ) (kw : ModelKwargs) : Except PyErr ModelState :=
  match name, kw with
  | "gaussian", .noKw => (mvgInitFlags nf false false).map .gaussianM
  | "gaussian", .transKw uq ul => (mvgInitFlags nf uq ul).map .gaussianM
  | "cam", .camKw mb mr co => (camInit nf mb mr co).map .camM
  | "linear", .noKw =>
    if 0 < nf then .ok (.linearM nf false false false none)
    else .error .assertionError
  | "linear", .transKw uq ul =>
    if 0 < nf ∧ ¬(uq ∧ ul) then .ok (.linearM nf uq ul false none)
    else .error .assertionError
  | "lasso", .noKw =>
    if 0 < nf then .ok (.lassoM nf (1 / 10) false false false none none)
    else .error .assertionError
  | "lasso", .lassoKw a uq ul =>
    if 0 < nf ∧ ¬(uq ∧ ul) then .ok (.lassoM nf a uq ul false none none)
    else .error .assertionError
  | "lognormal", .noKw =>
    if 0 < nf then .ok (.lognormalM nf false none)
    else .error .assertionError
  | _, _ => .error .typeError

/-- `model.fit(x, y)` per variant: the applicable transform wrapper, the
base-class asserts, then the variant's `_fit` (storing its fit attributes and
setting `trained`).  `LogNormalRandomSample._fit` additionally asserts
`np.all(y > 0)` and stores `mu, sigma = np.mean(np.log(y)), np.std(np.log(y))`. -/
def fitModel (ext : Externals) (m : ModelState) (x : List (List (Option ℚ)))
    (y : List (Option ℚ)) : Except PyErr ModelState :=
  match m with
  | .gaussianM d => (mvgFitTrans ext d x y).map .gaussianM
  | .camM c => (camFit ext.g c x y).map .camM
  | .linearM nf uq ul _ _ =>
    if pmFitChecks nf (transApply ext uq ul x y).1 (transApply ext uq ul x y).2 then
      .ok (.linearM nf uq ul true
        (some (ext.linFit (stripM (transApply ext uq ul x y).1)
          (strip1 (transApply ext uq ul x y).2))))
    else .error .assertionError
  | .lassoM nf a uq ul _ _ _ =>
    if pmFitChecks nf (transApply ext uq ul x y).1 (transApply ext uq ul x y).2 then
      .ok (.lassoM nf a uq ul true
        (some (ext.lassoFitE a (stripM (transApply ext uq ul x y).1)
          (strip1 (transApply ext uq ul x y).2)))
        (some (ext.lassoCoef a (stripM (transApply ext uq ul x y).1)
          (strip1 (transApply ext uq ul x y).2))))
    else .error .assertionError
  | .lognormalM nf _ _ =>
    if pmFitChecks nf x y then
      if (strip1 y).all (fun v => decide (0 < v)) then
        .ok (.lognormalM nf true
          (some (meanQ ((strip1 y).map ext.npLog),
            ext.npStd ((strip1 y).map ext.npLog))))
      else .error .assertionError
    else .error .assertionError

/-- One entry of the `training_suite` data dictionary: the `(x, y)` tuple, the
model name, the feature count and the constructor keyword arguments. -/
structure SuiteEntry where
  x : List (List (Option ℚ))
  y : List (Option ℚ)
  model : String
  n_features : ℕ
  kwargs : ModelKwargs
  deriving DecidableEq

/-- The keys of `available_models` (models.py lines 258-264). -/
def availableModelNames : List String :=
  ["gaussian", "cam", "linear", "lasso", "lognormal"]

/-- The data-dependent checks of the validation loop (lines 281-286):
`data[name]['model'] in available_models` and
`data[name]['n_features'] == data[name]['xy'][0].shape[1]`.  (The
`isinstance` checks on the tuple/int/dict shape of an entry are guaranteed by
the typed embedding.) -/
def entryValid (e : SuiteEntry) : Bool :=
  availableModelNames.contains e.model && (e.n_features == ncols e.x)

/-- The training loop (lines 288-296): construct and fit one model per entry
in dictionary order, aborting the whole call on the first exception. -/
def trainingSuiteLoop (ext : Externals) :
    List (String × SuiteEntry) → Except PyErr (List (String × ModelState))
  | [] => .ok []
  | (n, e) :: rest =>
    match mkModel e.model e.n_features e.kwargs with
    | .error er => .error er
    | .ok m =>
      match fitModel ext m e.x e.y with
      | .error er => .error er
      | .ok m2 =>
        match trainingSuiteLoop ext rest with
        | .error er => .error er
        | .ok tail => .ok ((n, m2) :: tail)

/-- `training_suite(data)`: validate every entry first, then train one model
per entry. -/
def trainingSuite (ext : Externals) (data : List (String × SuiteEntry)) :
    Except PyErr (List (String × ModelState)) :=
  if data.all (fun p => entryValid p.2) then trainingSuiteLoop ext data
  else .error .assertionError

theorem mvgFit_ok_trained {d d' : Attrs} {x : List (List (Option ℚ))}
    {y : List (Option ℚ)} (h : mvgFit d x y = .ok d') :
    d'.lookup "trained" = some (.boolV true) := by
  unfold mvgFit at h
  split at h
  · split at h
    · split at h
      · exact absurd h (by simp)
      · split at h
        · exact absurd h (by simp)
        · injection h with h
          subst h
          rfl
    · exact absurd h (by simp)
  · exact absurd h (by simp)

theorem camFit_ok_trained {g : List (List ℚ) → List ℚ → List ℚ → List ℚ}
    {c c' : CAMModel} {x : List (List (Option ℚ))} {y : List (Option ℚ)}
    (h : camFit g c x y = .ok c') : c'.trained = true := by
  unfold camFit at h
  split at h
  · split at h
    · split at h
      · injection h with h
        subst h
        rfl
      · exact absurd h (by simp)
    · exact absurd h (by simp)
  · exact absurd h (by simp)

theorem mvgFitTrans_ok_trained {ext : Externals} {d d' : Attrs}
    {x : List (List (Option ℚ))} {y : List (Option ℚ)}
    (h : mvgFitTrans ext d x y = .ok d') :
    d'.lookup "trained" = some (.boolV true) := by
  unfold mvgFitTrans at h
  split at h
  · exact mvgFit_ok_trained h
  · exact absurd h (by simp)

theorem fitModel_ok_trained {ext : Externals} {m m2 : ModelState}
    {x : List (List (Option ℚ))} {y : List (Option ℚ)}
    (h : fitModel ext m x y = .ok m2) : m2.isTrained = true := by
  cases m with
  | gaussianM d =>
    rw [fitModel] at h
    cases hg : mvgFitTrans ext d x y with
    | ok d2 =>
      rw [hg] at h
      injection h with h
      subst h
      simp [ModelState.isTrained, mvgFitTrans_ok_trained hg]
    | error er =>
      rw [hg] at h
      exact absurd h (by simp [Except.map])
  | camM c =>
    rw [fitModel] at h
    cases hg : camFit ext.g c x y with
    | ok c2 =>
      rw [hg] at h
      injection h with h
      subst h
      simp [ModelState.isTrained, camFit_ok_trained hg]
    | error er =>
      rw [hg] at h
      exact absurd h (by simp [Except.map])
  | linearM nf uq ul t reg =>
    rw [fitModel] at h
    split at h
    · injection h with h
      subst h
      rfl
    · exact absurd h (by simp)
  | lassoM nf a uq ul t reg imp =>
    rw [fitModel] at h
    split at h
    · injection h with h
      subst h
      rfl
    · exact absurd h (by simp)
  | lognormalM nf t ms =>
    rw [fitModel] at h
    split at h
    · split at h
      · injection h with h
        subst h
        rfl
      · exact absurd h (by simp)
    · exact absurd h (by simp)

theorem trainingSuiteLoop_ok (ext : Externals) :
    ∀ (data : List (String × SuiteEntry)) (res : List (String × ModelState)),
      trainingSuiteLoop ext data = .ok res →
      res.map Prod.fst = data.map Prod.fst ∧
      (∀ q ∈ res, q.2.isTrained = true) ∧
      (∀ p ∈ data, ∃ m, mkModel p.2.model p.2.n_features p.2.kwargs = .ok m)
  | [], res, h => by
    injection h with h
    subst h
    exact ⟨rfl, by simp, by simp⟩
  | (n, e) :: rest, res, h => by
    rw [trainingSuiteLoop] at h
    cases hmk : mkModel e.model e.n_features e.kwargs with
    | error er =>
      rw [hmk] at h
      exact absurd h (by simp)
    | ok m =>
      rw [hmk] at h
      dsimp only at h
      cases hft : fitModel ext m e.x e.y with
      | error er =>
        rw [hft] at h
        exact absurd h (by simp)
      | ok m2 =>
        rw [hft] at h
        dsimp only at h
        cases hlp : trainingSuiteLoop ext rest with
        | error er =>
          rw [hlp] at h
          exact absurd h (by simp)
        | ok tail =>
          rw [hlp] at h
          dsimp only at h
          injection h with h
          subst h
          obtain ⟨ih1, ih2, ih3⟩ := trainingSuiteLoop_ok ext rest tail hlp
          refine ⟨by simp [ih1], ?_, ?_⟩
          · intro q hq
            rcases List.mem_cons.mp hq with rfl | hq
            · exact fitModel_ok_trained hft
            · exact ih2 q hq
          · intro p hp
            rcases List.mem_cons.mp hp with rfl | hp
            · exact ⟨m, hmk⟩
            · exact ih3 p hp

theorem mkModel_badKw {name : String} (hname : name ∈ availableModelNames)
    (nf : ℕ) : mkModel name nf .badKw = .error .typeError := by
  simp only [availableModelNames, List.mem_cons, List.mem_singleton,
    List.not_mem_nil, or_false] at hname
  rcases hname with rfl | rfl | rfl | rfl | rfl <;> rfl

/-- C6: `training_suite` is all-or-nothing.  If any entry has an unknown model
name, a feature count differing from its data's column count (the validation
loop, run in full before any training), or keyword arguments its constructor
rejects, the call raises and no mapping of trained models is returned (an
exception returns nothing to the caller).  Whenever it does return, the result
has exactly the entry names of the input, in order, and every returned model
has `trained = True`. -/
theorem training_suite_all_or_nothing (ext : Externals)
    (data : List (String × SuiteEntry)) :
    ((∃ p ∈ data, entryValid p.2 = false ∨ p.2.kwargs = .badKw) →
      ∃ er, trainingSuite ext data = .error er) ∧
    (∀ res, trainingSuite ext data = .ok res →
      res.map Prod.fst = data.map Prod.fst ∧ ∀ q ∈ res, q.2.isTrained = true) := by
  constructor
  · rintro ⟨p, hp, hbad⟩
    rw [trainingSuite]
    by_cases hall : data.all (fun q => entryValid q.2) = true
    · rw [if_pos hall]
      rcases hbad with hbad | hbad
      · exact absurd (List.all_eq_true.mp hall p hp) (by simp [hbad])
      · cases hloop : trainingSuiteLoop ext data with
        | error er => exact ⟨er, rfl⟩
        | ok res =>
          obtain ⟨-, -, h3⟩ := trainingSuiteLoop_ok ext data res hloop
          obtain ⟨m, hm⟩ := h3 p hp
          have hv := List.all_eq_true.mp hall p hp
          rw [entryValid, Bool.and_eq_true] at hv
          have hmem : p.2.model ∈ availableModelNames := by
            simpa using hv.1
          rw [hbad, mkModel_badKw hmem] at hm
          exact absurd hm (by simp)
    · rw [if_neg hall]
      exact ⟨_, rfl⟩
  · intro res h
    rw [trainingSuite] at h
    by_cases hall : data.all (fun q => entryValid q.2) = true
    · rw [if_pos hall] at h
      obtain ⟨h1, h2, -⟩ := trainingSuiteLoop_ok ext data res h
      exact ⟨h1, h2⟩
    · rw [if_neg hall] at h
      exact absurd h (by simp)

/-- A concrete instantiation of the opaque collaborators, for the witness. -/
def exampleExternals : Externals :=
  ⟨fun am _ _ => am.map (fun r => r.headD 0), fun _ _ => ([], 0),
   fun _ _ _ => ([], 0), fun _ _ _ => [], fun v => v, fun _ => 0,
   fun x => x, fun y => y⟩

theorem training_suite_all_or_nothing_witness :
    ∃ er, trainingSuite exampleExternals
      [("run1", ⟨[[some 1]], [some 1], "unknown", 1, .noKw⟩)] = .error er :=
  (training_suite_all_or_nothing exampleExternals
    [("run1", ⟨[[some 1]], [some 1], "unknown", 1, .noKw⟩)]).1
    ⟨("run1", ⟨[[some 1]], [some 1], "unknown", 1, .noKw⟩), by simp,
      Or.inl (by decide)⟩

end Relaxed
